import Mathlib

/-!
Shallow embedding of the tour-asset cache manager of the Heritage Interact Kit
mobile app (source file `src/services/tourAssetDownloader.ts`, with the data
model from `src/types/api.ts`, the storage keys from `src/config/api.ts`, and
the store usage of `src/services/api.ts`).

Modelling conventions:
* JavaScript strings are Lean `String`s; where the source manipulates
  character positions (`split`, `lastIndexOf`, `substring`) we work on the
  underlying `List Char`.
* The Expo file system is a list of the paths that currently exist
  (`Fs := List String`); `FileSystem.deleteAsync` on a directory removes the
  directory together with everything below it, i.e. every path having the
  directory path (which ends in a slash) as a string prefix.
* `AsyncStorage` is an association list from string keys to stored values.
  A stored value is either a well-formed serialized `CachedTourData` or a
  `malformed` blob on which `JSON.parse` throws.
* Effects of the environment are lifted to explicit parameters:
  `Date.now()` / `Math.random().toString(36).substring(2, 8)` become the
  `timestamp` / `randomId` string parameters, the HTTP status returned by
  `FileSystem.downloadAsync` becomes a `status` parameter, and the current
  moment used by `new Date()` becomes a `now : Int` (milliseconds since
  epoch) parameter.
-/

namespace TourAssetCache

/-- JS `String.prototype.split` with a one-character separator, acting on the
character list of the string.  `""` splits to `[""]`, `"/"` to `["", ""]`,
exactly as in JavaScript. -/
def jsSplitChars (c : Char) : List Char → List (List Char)
  | [] => [[]]
  | x :: xs =>
    let r := jsSplitChars c xs
    if x = c then [] :: r
    else (x :: r.headD []) :: r.tail

/-- JS `String.prototype.lastIndexOf` for a one-character needle: the index of
the last occurrence, `-1` when absent. -/
def jsLastIndexOf (l : List Char) (c : Char) : Int :=
  match l.reverse.findIdx? (· = c) with
  | none => -1
  | some i => (l.length : Int) - 1 - (i : Int)

/-- JS `String.prototype.startsWith`, as a character-level prefix test (the
built-in `String.startsWith` does not reduce in the kernel). -/
def jsStartsWith (s p : String) : Bool := p.data.isPrefixOf s.data

/-- Abstract stand-in for the platform-supplied `FileSystem.documentDirectory`. -/
def documentDirectory : String := "file:///document/"

/-- `private cacheDir = FileSystem.documentDirectory + "tour_cache/"`. -/
def cacheDir : String := documentDirectory ++ "tour_cache/"

/-- The file system: the set of paths that exist, as a list. -/
abbrev Fs := List String

/-- `FileSystem.getInfoAsync(p)).exists`. -/
def getInfoExists (fs : Fs) (p : String) : Bool := fs.contains p

/-- `FileSystem.makeDirectoryAsync(p, {intermediates: true})`. -/
def makeDirectory (fs : Fs) (p : String) : Fs := p :: fs

/-- `FileSystem.deleteAsync(dir)` for a directory path (ending in a slash):
removes the directory and every path below it. -/
def deleteRecursively (fs : Fs) (dir : String) : Fs :=
  fs.filter (fun p => !(dir.data.isPrefixOf p.data))

/-- `TourAssetDownloader.ensureCacheDirectoryExists` acting on the file system
and the `_cacheInitialized` flag (modelled as `ready`): a no-op once the flag
is set, otherwise creates the cache directory when missing and sets the flag. -/
def ensureCacheDirectoryExists (fs : Fs) (ready : Bool) : Fs × Bool :=
  if ready then (fs, ready)
  else
    (if getInfoExists fs cacheDir then fs else makeDirectory fs cacheDir, true)

/-- `TourAssetDownloader.getFileNameFromUrl`.  `timestamp` models
`Date.now()` rendered as a string and `randomId` models
`Math.random().toString(36).substring(2, 8)`; both are digit/alphanumeric
strings in JavaScript. -/
def getFileNameFromUrl (url : String) (timestamp randomId : String) : String :=
  let urlParts := jsSplitChars '/' url.data
  let fileName := urlParts.getLastD []
  let dotIndex : Int := jsLastIndexOf fileName '.'
  if 0 < dotIndex then
    let name := fileName.take dotIndex.toNat
    let ext := fileName.drop dotIndex.toNat
    String.mk (name ++ ('_' :: timestamp.data) ++ ('_' :: randomId.data) ++ ext)
  else
    String.mk (fileName ++ ('_' :: timestamp.data) ++ ('_' :: randomId.data))

/-- Result of one `TourAssetDownloader.downloadFile` call: `result` is the
returned local path (`none` when the call throws), `fs`/`cacheReady` the
updated state, and `fetched` records whether `FileSystem.downloadAsync` was
invoked (i.e. whether a network fetch happened). -/
structure DownloadFileResult where
  result : Option String
  fs : Fs
  cacheReady : Bool
  fetched : Bool
deriving DecidableEq, Repr

/-- `TourAssetDownloader.downloadFile`: derive the file name, return the
existing path when a file already exists there, otherwise download; on a
non-200 status the call throws (`result := none`). -/
def downloadFile (fs : Fs) (ready : Bool) (url timestamp randomId : String)
    (status : Nat) : DownloadFileResult :=
  let e := ensureCacheDirectoryExists fs ready
  let fileName := getFileNameFromUrl url timestamp randomId
  let localPath := cacheDir ++ fileName
  if getInfoExists e.1 localPath then
    { result := some localPath, fs := e.1, cacheReady := e.2, fetched := false }
  else
    let fs2 := localPath :: e.1
    if status == 200 then
      { result := some localPath, fs := fs2, cacheReady := e.2, fetched := true }
    else
      { result := none, fs := fs2, cacheReady := e.2, fetched := true }

/-- `Asset` from `src/types/api.ts` (fields the downloader reads; `material_urls`
is guarded by a truthiness check in the source, hence `Option`). -/
structure Asset where
  id : Int
  title : String
  description : String
  model_url : Option String
  material_urls : Option (List String)
  thumbnail_image_url : Option String
  folder_id : String
  created_at : String
  marker_image_url : Option String
  audio_url : Option String
  video_url : Option String
deriving DecidableEq, Repr

/-- `Task` from `src/types/api.ts` (the optional `object` back-reference is
omitted: it would make the types mutually recursive and the cache manager
never reads it). -/
structure Task where
  id : Int
  title : String
  description : String
  thumbnail_url : Option String
  detailed_img_url : Option String
  created_at : String
  hasSubmission : Bool
deriving DecidableEq, Repr

/-- `TourObject` from `src/types/api.ts` (the optional `lat`/`lng` floating
point coordinates are omitted: the cache manager never reads them). -/
structure TourObject where
  id : Int
  title : String
  description : String
  thumbnail_url : Option String
  created_at : String
  assets : Option (List Asset)
  tasks : Option (List Task)
deriving DecidableEq, Repr

/-- `TourDetails extends Tour` from `src/types/api.ts`, flattened. -/
structure TourDetails where
  id : Int
  title : String
  description : String
  thumbnail_url : Option String
  created_at : String
  objects : List TourObject
deriving DecidableEq, Repr

/-- `CachedTourData` from `src/services/tourAssetDownloader.ts`.  The source
stores `downloadedAt` as an ISO string and re-parses it with `new Date(...)`;
we model it directly as the corresponding milliseconds-since-epoch value.
`localAssets` is the insertion-ordered URL → local-path record. -/
structure CachedTourData where
  tourDetails : TourDetails
  downloadedAt : Int
  localAssets : List (String × String)
deriving DecidableEq, Repr

/-- JS truthiness of an optional string field: present and not `""`. -/
def truthy : Option String → Bool
  | none => false
  | some s => !(s == "")

/-- Push an optional URL onto the accumulator when truthy
(`if (x) urls.push(x)`). -/
def pushIf (o : Option String) (urls : List String) : List String :=
  match o with
  | some s => if s == "" then urls else urls ++ [s]
  | none => urls

/-- Helper for `jsSetDedup`: keep the first occurrence of each element,
remembering the elements already seen (structural recursion, so that the
kernel can evaluate it). -/
def jsSetDedupAux (seen : List String) : List String → List String
  | [] => []
  | x :: xs =>
    if seen.contains x then jsSetDedupAux seen xs
    else x :: jsSetDedupAux (x :: seen) xs

/-- `new Set(urls)` materialised back to an array: first-occurrence-ordered
deduplication, as JavaScript `Set` iteration is in insertion order. -/
def jsSetDedup (l : List String) : List String := jsSetDedupAux [] l

/-- The URLs `collectAllAssetUrls` pushes for one `Asset`. -/
def assetUrls (a : Asset) : List String :=
  let u0 := pushIf a.thumbnail_image_url []
  let u1 := pushIf a.model_url u0
  let u2 :=
    match a.material_urls with
    | some ms => ms.foldl (fun acc m => pushIf (some m) acc) u1
    | none => u1
  let u3 := pushIf a.marker_image_url u2
  let u4 := pushIf a.audio_url u3
  pushIf a.video_url u4

/-- The URLs `collectAllAssetUrls` pushes for one `Task`. -/
def taskUrls (t : Task) : List String :=
  pushIf t.detailed_img_url (pushIf t.thumbnail_url [])

/-- The URLs `collectAllAssetUrls` pushes for one `TourObject` (object
thumbnail, then its assets' URLs, then its tasks' URLs). -/
def objectUrls (o : TourObject) : List String :=
  let u0 := pushIf o.thumbnail_url []
  let u1 :=
    match o.assets with
    | some as_ => u0 ++ as_.flatMap assetUrls
    | none => u0
  match o.tasks with
  | some ts => u1 ++ ts.flatMap taskUrls
  | none => u1

/-- `TourAssetDownloader.collectAllAssetUrls`: tour thumbnail, then per-object
URLs, with duplicates removed via `Array.from(new Set(urls))`. -/
def collectAllAssetUrls (td : TourDetails) : List String :=
  jsSetDedup (pushIf td.thumbnail_url [] ++ td.objects.flatMap objectUrls)

/-- A value persisted in `AsyncStorage`: either a well-formed serialized
`CachedTourData`, or a blob on which `JSON.parse` throws. -/
inductive StoredValue where
  | valid (d : CachedTourData)
  | malformed
deriving DecidableEq, Repr

/-- `AsyncStorage`, a string-keyed persistent store. -/
abbrev Store := List (String × StoredValue)

/-- `AsyncStorage.getItem` (first matching key, `null` when absent). -/
def getItem (s : Store) (k : String) : Option StoredValue :=
  (s.find? (fun kv => kv.1 == k)).map (fun kv => kv.2)

/-- `AsyncStorage.setItem`: overwrite in place when the key exists, append
otherwise. -/
def setItem (s : Store) (k : String) (v : StoredValue) : Store :=
  if (s.find? (fun kv => kv.1 == k)).isSome then
    s.map (fun kv => if kv.1 == k then (k, v) else kv)
  else s ++ [(k, v)]

/-- `AsyncStorage.removeItem`. -/
def removeItem (s : Store) (k : String) : Store :=
  s.filter (fun kv => !(kv.1 == k))

/-- `AsyncStorage.getAllKeys`. -/
def getAllKeys (s : Store) : List String := s.map (fun kv => kv.1)

/-- `AsyncStorage.multiRemove`. -/
def multiRemove (s : Store) (ks : List String) : Store :=
  s.filter (fun kv => !(ks.contains kv.1))

/-- The storage key `cached_tour_<id>` for a tour id. -/
def cacheKey (tourId : Int) : String := "cached_tour_" ++ toString tourId

/-- `private readonly CACHE_EXPIRY_HOURS = 24`. -/
def CACHE_EXPIRY_HOURS : Int := 24

/-- `TourAssetDownloader.isTourCached`, as a store transformer so that its
read-only character is a statement, not an assumption.  `readFails` models the
store read itself rejecting; both that rejection and a `JSON.parse` throw on a
malformed entry land in the `catch`, which returns `false`.  `now` is the
current time in milliseconds (`new Date()`). -/
def isTourCached (s : Store) (tourId : Int) (now : Int) (readFails : Bool) :
    Bool × Store :=
  if readFails then (false, s)
  else
    match getItem s (cacheKey tourId) with
    | none => (false, s)
    | some .malformed => (false, s)
    | some (.valid d) =>
      (decide (now < d.downloadedAt + CACHE_EXPIRY_HOURS * 60 * 60 * 1000), s)

/-- `TourAssetDownloader.getCachedTourData`, as a store transformer.  A store
read failure or a `JSON.parse` throw is caught and yields `null`. -/
def getCachedTourData (s : Store) (tourId : Int) (readFails : Bool) :
    Option CachedTourData × Store :=
  if readFails then (none, s)
  else
    match getItem s (cacheKey tourId) with
    | none => (none, s)
    | some .malformed => (none, s)
    | some (.valid d) => (some d, s)

/-- `TourAssetDownloader.clearTourCache`: remove the store entry, then delete
the per-tour subdirectory `tour_cache/tour_<id>/` when it exists. -/
def clearTourCache (fs : Fs) (s : Store) (ready : Bool) (tourId : Int) :
    Fs × Store × Bool :=
  let e := ensureCacheDirectoryExists fs ready
  let s1 := removeItem s (cacheKey tourId)
  let tourCacheDir := cacheDir ++ "tour_" ++ toString tourId ++ "/"
  let fs2 :=
    if getInfoExists e.1 tourCacheDir then deleteRecursively e.1 tourCacheDir
    else e.1
  (fs2, s1, e.2)

/-- `TourAssetDownloader.clearAllCache`: remove every `cached_tour_*` key,
delete the cache root directory, then call `ensureCacheDirectoryExists`
again. -/
def clearAllCache (fs : Fs) (s : Store) (ready : Bool) : Fs × Store × Bool :=
  let e := ensureCacheDirectoryExists fs ready
  let keys := getAllKeys s
  let tourCacheKeys := keys.filter (fun k => jsStartsWith k "cached_tour_")
  let s1 := multiRemove s tourCacheKeys
  let fs2 :=
    if getInfoExists e.1 cacheDir then deleteRecursively e.1 cacheDir else e.1
  let e2 := ensureCacheDirectoryExists fs2 e.2
  (e2.1, s1, e2.2)

/-- The `DownloadProgress` record handed to the progress callback. -/
structure DownloadProgress where
  total : Nat
  downloaded : Nat
  currentFile : String
  percentage : Nat
deriving DecidableEq, Repr

/-- `Math.round((d / total) * 100)` on the exact rational: for nonnegative
arguments `Math.round x = ⌊x + 1/2⌋`, and `⌊100·d/t + 1/2⌋ = (200·d + t) / (2·t)`
in natural division.  The `total = 0` branch is never reached by the loop
(an empty URL list produces no loop iterations). -/
def jsRoundPct (d total : Nat) : Nat :=
  if total = 0 then 0 else (200 * d + total) / (2 * total)

/-- JS record assignment `obj[k] = v`: overwrite in place when the key exists,
append otherwise. -/
def jsRecordSet (l : List (String × String)) (k v : String) :
    List (String × String) :=
  if (l.find? (fun kv => kv.1 == k)).isSome then
    l.map (fun kv => if kv.1 == k then (k, v) else kv)
  else l ++ [(k, v)]

/-- Per-iteration environment of the download loop: the timestamp/random-id
pair drawn when deriving the display name for the progress callback, the pair
drawn inside `downloadFile`, and the HTTP status of the fetch. -/
structure DlEnv where
  dts : String
  drid : String
  fts : String
  frid : String
  status : Nat

/-- Mutable state of the `downloadTourAssets` loop.  `events` is the list of
progress records reported so far; `failures` counts the download attempts
that threw (a ghost instrumentation counter, like `events`). -/
structure BatchState where
  downloaded : Nat
  localAssets : List (String × String)
  fs : Fs
  cacheReady : Bool
  events : List DownloadProgress
  failures : Nat

/-- One iteration of the `for (const url of urlsToDownload)` loop: when the
URL is truthy, report a pre-download progress record, attempt the download,
record the mapping on success and swallow the error on failure; in all cases
increment `downloaded` and report a post-attempt progress record. -/
def processUrl (total : Nat) (st : BatchState) (url : String) (e : DlEnv) :
    BatchState :=
  let st1 :=
    if url == "" then st
    else
      let preEv : DownloadProgress :=
        { total := total, downloaded := st.downloaded,
          currentFile := getFileNameFromUrl url e.dts e.drid,
          percentage := jsRoundPct st.downloaded total }
      let r := downloadFile st.fs st.cacheReady url e.fts e.frid e.status
      match r.result with
      | some p =>
        { st with localAssets := jsRecordSet st.localAssets url p,
                  fs := r.fs, cacheReady := r.cacheReady,
                  events := st.events ++ [preEv] }
      | none =>
        { st with fs := r.fs, cacheReady := r.cacheReady,
                  failures := st.failures + 1,
                  events := st.events ++ [preEv] }
  let d := st1.downloaded + 1
  { st1 with downloaded := d,
             events := st1.events ++
               [{ total := total, downloaded := d,
                  currentFile := if d < total then "Next file..." else "Complete!",
                  percentage := jsRoundPct d total }] }

/-- The download loop over the collected URLs; `i` is the iteration index used
to address the per-iteration environment. -/
def processUrls (total : Nat) (env : Nat → DlEnv) :
    List String → Nat → BatchState → BatchState
  | [], _, st => st
  | u :: rest, i, st =>
    processUrls total env rest (i + 1) (processUrl total st u (env i))

/-- Result of a `downloadTourAssets` call: the returned `CachedTourData`, the
final file system, store and flag, the sequence of progress records reported
to the callback, and the number of swallowed per-asset failures. -/
structure BatchResult where
  cachedData : CachedTourData
  fs : Fs
  store : Store
  cacheReady : Bool
  events : List DownloadProgress
  failures : Nat

/-- `TourAssetDownloader.downloadTourAssets` on the successful-fetch path:
`td` is the `apiService.getTourDetails(tourId)` response body (a fetch
failure aborts the batch before any modelled effect and rethrows).  Ensures
the cache directory, collects the URLs, reports the initial progress record,
runs the loop, then persists the assembled `CachedTourData` under
`cached_tour_<id>` and returns it. -/
def downloadTourAssets (td : TourDetails) (tourId : Int) (env : Nat → DlEnv)
    (fs : Fs) (ready : Bool) (s : Store) (now : Int) : BatchResult :=
  let e := ensureCacheDirectoryExists fs ready
  let urls := collectAllAssetUrls td
  let total := urls.length
  let ev0 : DownloadProgress :=
    { total := total, downloaded := 0,
      currentFile := "Starting download...", percentage := 0 }
  let st0 : BatchState :=
    { downloaded := 0, localAssets := [], fs := e.1, cacheReady := e.2,
      events := [ev0], failures := 0 }
  let st := processUrls total env urls 0 st0
  let cached : CachedTourData :=
    { tourDetails := td, downloadedAt := now, localAssets := st.localAssets }
  let s1 := setItem s (cacheKey tourId) (.valid cached)
  { cachedData := cached, fs := st.fs, store := s1,
    cacheReady := st.cacheReady, events := st.events, failures := st.failures }

/-! Spec-side enumeration of "the URL-valued optional fields present in the
record", written from the specification's wording (§4.1) for comparison with
the source-side `collectAllAssetUrls`.  A field is *present* when it is
supplied and non-empty (an empty string is not a URL, and the source's
truthiness guards skip it). -/

/-- The spec-side reading of one optional URL field: a one-element list when
the field is present, empty otherwise. -/
def presentOpt : Option String → List String
  | none => []
  | some s => if s = "" then [] else [s]

/-- Spec-side URL fields of an `Asset`: model, materials, thumbnail, marker,
audio and video URLs, in the order the spec lists them. -/
def specAssetUrls (a : Asset) : List String :=
  presentOpt a.model_url ++
    (a.material_urls.getD []).filter (fun s => !(s == "")) ++
    presentOpt a.thumbnail_image_url ++ presentOpt a.marker_image_url ++
    presentOpt a.audio_url ++ presentOpt a.video_url

/-- Spec-side URL fields of a `Task`: thumbnail and detail-image URLs. -/
def specTaskUrls (t : Task) : List String :=
  presentOpt t.thumbnail_url ++ presentOpt t.detailed_img_url

/-- Spec-side URL fields of a `TourObject`: its thumbnail and the fields of
its assets and tasks. -/
def specObjectUrls (o : TourObject) : List String :=
  presentOpt o.thumbnail_url ++ (o.assets.getD []).flatMap specAssetUrls ++
    (o.tasks.getD []).flatMap specTaskUrls

/-- Spec-side enumeration of every URL-valued optional field present in a
`TourDetails` record. -/
def specPresentUrls (td : TourDetails) : List String :=
  presentOpt td.thumbnail_url ++ td.objects.flatMap specObjectUrls

/-! Concrete demonstration inputs for the end-to-end scenario of the spec
(§8): tour id 7 with three asset URLs. -/

/-- A tour record with exactly three asset URLs (tour thumbnail, one object
thumbnail, one model URL). -/
def demoTour : TourDetails :=
  { id := 7, title := "Old Town", description := "demo",
    thumbnail_url := some "https://x.com/a.png", created_at := "2024-01-01",
    objects :=
      [{ id := 1, title := "Gate", description := "demo",
         thumbnail_url := some "https://x.com/b.jpg", created_at := "2024-01-01",
         assets := some
           [{ id := 2, title := "Gate model", description := "demo",
              model_url := some "https://x.com/m.glb", material_urls := none,
              thumbnail_image_url := none, folder_id := "f",
              created_at := "2024-01-01", marker_image_url := none,
              audio_url := none, video_url := none }],
         tasks := none }] }

/-- A download-loop environment for the demonstration run: per-iteration
timestamps `100 + i`, fixed random ids, every fetch succeeding with 200. -/
def demoEnv : Nat → DlEnv :=
  fun i => { dts := toString i, drid := "rr",
             fts := toString (100 + i), frid := "ss", status := 200 }

/-- A download-loop environment drawing the same timestamp and random id at
every iteration (slash-free by construction), every fetch succeeding. -/
def constEnv : Nat → DlEnv :=
  fun _ => { dts := "1", drid := "rr", fts := "100", frid := "ss", status := 200 }

/-! ### Theorems -/

/-- C1: refuted as stated — `downloadFile` is **not** idempotent.  The derived
file name embeds the call-time `Date.now()` and a fresh random id, so after a
successful first call for a URL, a second call with the same URL derives a
*different* local path, misses the `fileInfo.exists` check, performs a second
network fetch (`fetched = true`) and returns a different path.  Evaluated at
the failing input: url `https://x.com/a.png`, first call at time 100 with
random id `aa`, second call at time 200 with random id `bb`, both fetches
returning status 200. -/
theorem downloadFile_second_call_refetches :
    (downloadFile [] false "https://x.com/a.png" "100" "aa" 200).result
        = some (cacheDir ++ "a_100_aa.png")
    ∧ (downloadFile [] false "https://x.com/a.png" "100" "aa" 200).fetched = true
    ∧ (downloadFile (downloadFile [] false "https://x.com/a.png" "100" "aa" 200).fs
        (downloadFile [] false "https://x.com/a.png" "100" "aa" 200).cacheReady
        "https://x.com/a.png" "200" "bb" 200).fetched = true
    ∧ (downloadFile (downloadFile [] false "https://x.com/a.png" "100" "aa" 200).fs
        (downloadFile [] false "https://x.com/a.png" "100" "aa" 200).cacheReady
        "https://x.com/a.png" "200" "bb" 200).result
        = some (cacheDir ++ "a_200_bb.png") := by
  refine ⟨rfl, rfl, rfl, rfl⟩

/-- C2: refuted as stated — after `clearAllCache` the persisted cache keys
are indeed removed and the cache root directory deleted, but the root
directory is **not** recreated: the trailing `ensureCacheDirectoryExists`
call returns early because the first call of the same run already set the
`_cacheInitialized` flag.  Evaluated at a failing input: the root directory
exists, one cached tour entry, flag initially unset. -/
theorem clearAllCache_root_not_recreated :
    (clearAllCache [cacheDir] [(cacheKey 7, StoredValue.malformed)] false).2.1 = []
    ∧ (clearAllCache [cacheDir] [(cacheKey 7, StoredValue.malformed)] false).1 = []
    ∧ getInfoExists
        (clearAllCache [cacheDir] [(cacheKey 7, StoredValue.malformed)] false).1
        cacheDir = false := by
  refine ⟨rfl, rfl, rfl⟩

/-- C10: `clearAllCache` removes from the store exactly the entries whose key
starts with `cached_tour_`; every other entry (access token, refresh token,
user, …) is kept, in place. -/
theorem clearAllCache_store_removes_exactly_prefixed (fs : Fs) (s : Store)
    (ready : Bool) :
    (clearAllCache fs s ready).2.1
      = s.filter (fun kv => !(jsStartsWith kv.1 "cached_tour_")) := by
  show multiRemove s (((getAllKeys s)).filter
      (fun k => jsStartsWith k "cached_tour_")) = _
  unfold multiRemove getAllKeys
  apply List.filter_congr
  intro kv hkv
  have hc : ((s.map (fun kv => kv.1)).filter
      (fun k => jsStartsWith k "cached_tour_")).contains kv.1
      = jsStartsWith kv.1 "cached_tour_" := by
    rw [Bool.eq_iff_iff, List.elem_iff, List.mem_filter]
    constructor
    · exact fun hx => hx.2
    · exact fun hx => ⟨List.mem_map_of_mem _ hkv, hx⟩
  rw [hc]

/-- C5: `isTourCached` (with a non-failing read) returns `true` iff a
well-formed entry exists whose `downloadedAt` is less than 24 hours old; the
check never mutates the store; and the spec's freshness instances hold: an
entry downloaded 23 hours ago reports `true`, one downloaded 25 hours ago
reports `false`. -/
theorem isTourCached_iff_fresh :
    (∀ (s : Store) (tourId : Int) (now : Int),
      ((isTourCached s tourId now false).1 = true ↔
        ∃ d, getItem s (cacheKey tourId) = some (StoredValue.valid d) ∧
          now < d.downloadedAt + 24 * 60 * 60 * 1000)
      ∧ ∀ rf, (isTourCached s tourId now rf).2 = s)
    ∧ (∀ now : Int,
      (isTourCached [(cacheKey 1,
          StoredValue.valid ⟨demoTour, now - 23 * 3600000, []⟩)] 1 now false).1
        = true
      ∧ (isTourCached [(cacheKey 1,
          StoredValue.valid ⟨demoTour, now - 25 * 3600000, []⟩)] 1 now false).1
        = false) := by
  constructor
  · intro s tourId now
    constructor
    · cases h : getItem s (cacheKey tourId) with
      | none => simp [isTourCached, h]
      | some v =>
        cases v with
        | malformed => simp [isTourCached, h]
        | valid d =>
          simp only [isTourCached, if_neg (by simp : ¬ (false = true)), h,
            CACHE_EXPIRY_HOURS, decide_eq_true_eq, Option.some.injEq]
          constructor
          · intro hlt
            exact ⟨d, rfl, by linarith⟩
          · rintro ⟨d', hd', hlt⟩
            cases hd'
            linarith
    · intro rf
      cases rf
      · cases h : getItem s (cacheKey tourId) with
        | none => simp [isTourCached, h]
        | some v => cases v <;> simp [isTourCached, h]
      · rfl
  · intro now
    constructor
    · have h : getItem [(cacheKey 1,
          StoredValue.valid ⟨demoTour, now - 23 * 3600000, []⟩)] (cacheKey 1)
          = some (StoredValue.valid ⟨demoTour, now - 23 * 3600000, []⟩) := rfl
      simp only [isTourCached, if_neg (by simp : ¬ (false = true)), h,
        CACHE_EXPIRY_HOURS, decide_eq_true_eq]
      linarith
    · have h : getItem [(cacheKey 1,
          StoredValue.valid ⟨demoTour, now - 25 * 3600000, []⟩)] (cacheKey 1)
          = some (StoredValue.valid ⟨demoTour, now - 25 * 3600000, []⟩) := rfl
      simp only [isTourCached, if_neg (by simp : ¬ (false = true)), h,
        CACHE_EXPIRY_HOURS, decide_eq_false_iff_not]
      intro hc
      linarith

/-- C8: a malformed persisted entry, or a failing store read, is treated as a
cache miss: `isTourCached` returns `false`, `getCachedTourData` returns
`null`, neither raises, neither mutates the store. -/
theorem cache_read_errors_are_cache_misses (s : Store) (tourId : Int)
    (now : Int) (h : getItem s (cacheKey tourId) = some StoredValue.malformed) :
    isTourCached s tourId now false = (false, s)
    ∧ getCachedTourData s tourId false = (none, s)
    ∧ isTourCached s tourId now true = (false, s)
    ∧ getCachedTourData s tourId true = (none, s) := by
  refine ⟨?_, ?_, rfl, rfl⟩ <;> simp [isTourCached, getCachedTourData, h]

/-- C8 witness: the theorem applied to a store holding a malformed blob under
`cached_tour_3`. -/
theorem cache_read_errors_are_cache_misses_witness :
    isTourCached [(cacheKey 3, StoredValue.malformed)] 3 0 false
      = (false, [(cacheKey 3, StoredValue.malformed)])
    ∧ getCachedTourData [(cacheKey 3, StoredValue.malformed)] 3 false
      = (none, [(cacheKey 3, StoredValue.malformed)])
    ∧ isTourCached [(cacheKey 3, StoredValue.malformed)] 3 0 true
      = (false, [(cacheKey 3, StoredValue.malformed)])
    ∧ getCachedTourData [(cacheKey 3, StoredValue.malformed)] 3 true
      = (none, [(cacheKey 3, StoredValue.malformed)]) :=
  cache_read_errors_are_cache_misses _ 3 0 rfl

theorem mem_jsSetDedupAux {y : String} :
    ∀ {l seen : List String}, y ∈ jsSetDedupAux seen l ↔ y ∈ l ∧ y ∉ seen := by
  intro l
  induction l with
  | nil => simp [jsSetDedupAux]
  | cons x xs ih =>
    intro seen
    rw [jsSetDedupAux]
    split
    · rename_i hc
      rw [ih]
      have hx : x ∈ seen := List.elem_iff.1 hc
      simp only [List.mem_cons]
      constructor
      · rintro ⟨hmem, hseen⟩
        exact ⟨Or.inr hmem, hseen⟩
      · rintro ⟨hmem | hmem, hseen⟩
        · exact absurd (hmem ▸ hx) hseen
        · exact ⟨hmem, hseen⟩
    · rename_i hc
      have hx : x ∉ seen := fun hmem => hc (List.elem_iff.2 hmem)
      simp only [List.mem_cons, ih]
      constructor
      · rintro (rfl | ⟨hmem, hseen⟩)
        · exact ⟨Or.inl rfl, hx⟩
        · exact ⟨Or.inr hmem, fun hs => hseen (Or.inr hs)⟩
      · rintro ⟨rfl | hmem, hseen⟩
        · exact Or.inl rfl
        · by_cases hyx : y = x
          · exact Or.inl hyx
          · exact Or.inr ⟨hmem, by simp [hyx, hseen]⟩

theorem mem_jsSetDedup {y : String} {l : List String} :
    y ∈ jsSetDedup l ↔ y ∈ l := by
  unfold jsSetDedup
  rw [mem_jsSetDedupAux]
  simp

theorem jsSetDedupAux_nodup : ∀ (l seen : List String),
    (jsSetDedupAux seen l).Nodup := by
  intro l
  induction l with
  | nil => intro seen; simp [jsSetDedupAux]
  | cons x xs ih =>
    intro seen
    rw [jsSetDedupAux]
    split
    · exact ih seen
    · refine List.nodup_cons.2 ⟨?_, ih (x :: seen)⟩
      intro hmem
      exact (mem_jsSetDedupAux.1 hmem).2 (List.mem_cons_self x seen)

theorem jsSetDedup_nodup (l : List String) : (jsSetDedup l).Nodup :=
  jsSetDedupAux_nodup l []

theorem mem_presentOpt {u : String} {o : Option String} :
    u ∈ presentOpt o ↔ o = some u ∧ u ≠ "" := by
  cases o with
  | none => simp [presentOpt]
  | some s =>
    by_cases h : s = "" <;> simp [presentOpt, h] <;> aesop

theorem pushIf_eq_append (o : Option String) (l : List String) :
    pushIf o l = l ++ presentOpt o := by
  cases o with
  | none => simp [pushIf, presentOpt]
  | some s =>
    by_cases h : s = "" <;> simp [pushIf, presentOpt, h]

theorem foldl_pushIf (ms : List String) (acc : List String) :
    ms.foldl (fun acc m => pushIf (some m) acc) acc
      = acc ++ ms.flatMap (fun m => presentOpt (some m)) := by
  induction ms generalizing acc with
  | nil => simp
  | cons m rest ih =>
    rw [List.foldl_cons, ih, pushIf_eq_append, List.flatMap_cons,
      List.append_assoc]

theorem mem_assetUrls {u : String} (a : Asset) :
    u ∈ assetUrls a ↔ u ∈ specAssetUrls a := by
  cases hm : a.material_urls with
  | none =>
    simp only [assetUrls, specAssetUrls, hm, pushIf_eq_append,
      Option.getD_none, List.filter_nil, List.mem_append, List.nil_append,
      List.append_nil, List.not_mem_nil]
    tauto
  | some ms =>
    simp only [assetUrls, specAssetUrls, hm, Option.getD_some]
    rw [foldl_pushIf]
    simp only [pushIf_eq_append, List.mem_append, List.nil_append,
      List.mem_flatMap, mem_presentOpt, Option.some.injEq, List.mem_filter,
      Bool.not_eq_true', beq_eq_false_iff_ne, ne_eq]
    aesop

theorem mem_taskUrls {u : String} (t : Task) :
    u ∈ taskUrls t ↔ u ∈ specTaskUrls t := by
  unfold taskUrls specTaskUrls
  simp only [pushIf_eq_append, List.mem_append, List.nil_append]

theorem mem_objectUrls {u : String} (o : TourObject) :
    u ∈ objectUrls o ↔ u ∈ specObjectUrls o := by
  unfold objectUrls specObjectUrls
  cases ha : o.assets with
  | none =>
    cases ht : o.tasks <;>
      simp [pushIf_eq_append, List.mem_flatMap, mem_assetUrls, mem_taskUrls]
  | some as_ =>
    cases ht : o.tasks <;>
      simp [pushIf_eq_append, List.mem_flatMap, mem_assetUrls, mem_taskUrls]

/-- C4: for every tour record, `collectAllAssetUrls` returns a list without
duplicates whose elements are exactly the URL-valued optional fields present
in the record (as enumerated spec-side by `specPresentUrls`): nothing
invented, nothing present dropped, missing optional fields skipped. -/
theorem collectAllAssetUrls_nodup_and_exact (td : TourDetails) :
    (collectAllAssetUrls td).Nodup
    ∧ ∀ u, u ∈ collectAllAssetUrls td ↔ u ∈ specPresentUrls td := by
  refine ⟨jsSetDedup_nodup _, fun u => ?_⟩
  unfold collectAllAssetUrls specPresentUrls
  rw [mem_jsSetDedup]
  simp only [pushIf_eq_append, List.nil_append, List.mem_append,
    List.mem_flatMap, mem_objectUrls]

theorem mem_specPresentUrls_ne_empty {td : TourDetails} {u : String}
    (h : u ∈ specPresentUrls td) : u ≠ "" := by
  simp only [specPresentUrls, specObjectUrls, specAssetUrls, specTaskUrls,
    List.mem_append, List.mem_flatMap, List.mem_filter, mem_presentOpt,
    Bool.not_eq_true', beq_eq_false_iff_ne, ne_eq] at h
  aesop

theorem mem_collect_ne_empty {td : TourDetails} {u : String}
    (h : u ∈ collectAllAssetUrls td) : u ≠ "" :=
  mem_specPresentUrls_ne_empty
    (((collectAllAssetUrls_nodup_and_exact td).2 u).1 h)

theorem mem_jsRecordSet {l : List (String × String)} {k v : String}
    {kv : String × String} (h : kv ∈ jsRecordSet l k v) :
    kv.1 = k ∨ kv ∈ l := by
  unfold jsRecordSet at h
  split at h
  · rcases List.mem_map.1 h with ⟨kv0, hkv0, heq⟩
    by_cases hb : kv0.1 = k
    · rw [if_pos (by simpa using hb)] at heq
      exact Or.inl (by rw [← heq])
    · rw [if_neg (by simpa using hb)] at heq
      exact Or.inr (heq ▸ hkv0)
  · rcases List.mem_append.1 h with h | h
    · exact Or.inr h
    · exact Or.inl (by simpa using congrArg Prod.fst (List.mem_singleton.1 h))

theorem jsRecordSet_of_not_mem {l : List (String × String)} {k v : String}
    (h : ∀ kv ∈ l, kv.1 ≠ k) : jsRecordSet l k v = l ++ [(k, v)] := by
  have hfind : l.find? (fun kv => kv.1 == k) = none :=
    List.find?_eq_none.2 (fun kv hkv => by simpa using h kv hkv)
  unfold jsRecordSet
  rw [if_neg (by simp [hfind])]

theorem processUrl_localAssets_mem {total : Nat} {st : BatchState}
    {url : String} {e : DlEnv} {kv : String × String}
    (h : kv ∈ (processUrl total st url e).localAssets) :
    kv.1 = url ∨ kv ∈ st.localAssets := by
  simp only [processUrl] at h
  split at h
  · exact Or.inr h
  · split at h
    · exact mem_jsRecordSet h
    · exact Or.inr h

theorem processUrl_count_step {total : Nat} {st : BatchState} {url : String}
    {e : DlEnv} (hu : url ≠ "")
    (hkey : ∀ kv ∈ st.localAssets, kv.1 ≠ url) :
    (processUrl total st url e).localAssets.length
        + (processUrl total st url e).failures
      = st.localAssets.length + st.failures + 1 := by
  simp only [processUrl]
  rw [if_neg (by simpa using hu)]
  split
  · rw [jsRecordSet_of_not_mem hkey]
    simp only [List.length_append, List.length_cons, List.length_nil]
    omega
  · simp only []
    omega

theorem processUrls_count (total : Nat) (env : Nat → DlEnv) :
    ∀ (urls : List String) (i : Nat) (st : BatchState),
    urls.Nodup → (∀ u ∈ urls, u ≠ "") →
    (∀ kv ∈ st.localAssets, kv.1 ∉ urls) →
    (processUrls total env urls i st).localAssets.length
        + (processUrls total env urls i st).failures
      = st.localAssets.length + st.failures + urls.length := by
  intro urls
  induction urls with
  | nil =>
    intro i st _ _ _
    simp [processUrls]
  | cons u rest ih =>
    intro i st hnd hne hkeys
    rw [processUrls]
    have hu : u ≠ "" := hne u (List.mem_cons_self u rest)
    have hkey : ∀ kv ∈ st.localAssets, kv.1 ≠ u := by
      intro kv hkv he
      exact hkeys kv hkv (he ▸ List.mem_cons_self u rest)
    have hkeys' : ∀ kv ∈ (processUrl total st u (env i)).localAssets,
        kv.1 ∉ rest := by
      intro kv hkv
      rcases processUrl_localAssets_mem hkv with h | h
      · exact h ▸ (List.nodup_cons.1 hnd).1
      · exact fun hr => hkeys kv h (List.mem_cons_of_mem u hr)
    rw [ih (i + 1) _ (List.nodup_cons.1 hnd).2
      (fun v hv => hne v (List.mem_cons_of_mem u hv)) hkeys']
    rw [processUrl_count_step hu hkey]
    simp only [List.length_cons]
    omega

theorem processUrls_keys (total : Nat) (env : Nat → DlEnv) :
    ∀ (urls : List String) (i : Nat) (st : BatchState) (K : List String),
    (∀ kv ∈ st.localAssets, kv.1 ∈ K) → (∀ u ∈ urls, u ∈ K) →
    ∀ kv ∈ (processUrls total env urls i st).localAssets, kv.1 ∈ K := by
  intro urls
  induction urls with
  | nil =>
    intro i st K hst _ kv hkv
    exact hst kv hkv
  | cons u rest ih =>
    intro i st K hst hurls kv hkv
    rw [processUrls] at hkv
    refine ih (i + 1) _ K ?_ (fun v hv => hurls v (List.mem_cons_of_mem u hv))
      kv hkv
    intro kv' hkv'
    rcases processUrl_localAssets_mem hkv' with h | h
    · exact h ▸ hurls u (List.mem_cons_self u rest)
    · exact hst kv' h

theorem find?_map_overwrite (k : String) (v : StoredValue) :
    ∀ (s : Store), (s.find? (fun kv => kv.1 == k)).isSome →
    ((s.map (fun kv => if kv.1 == k then (k, v) else kv)).find?
        (fun kv => kv.1 == k)) = some (k, v) := by
  intro s
  induction s with
  | nil => simp
  | cons kv0 rest ih =>
    intro hsome
    by_cases hb : kv0.1 = k
    · simp [List.find?_cons, hb]
    · have hb' : (kv0.1 == k) = false := by simpa using hb
      have hhead : (if (kv0.1 == k) = true then (k, v) else kv0) = kv0 :=
        if_neg (by simp [hb'])
      simp only [List.map_cons, hhead, List.find?_cons]
      rw [hb']
      exact ih (by simpa [List.find?_cons, hb'] using hsome)

theorem getItem_setItem (k : String) (v : StoredValue) (s : Store) :
    getItem (setItem s k v) k = some v := by
  unfold setItem
  split
  · rename_i hsome
    unfold getItem
    rw [find?_map_overwrite k v s hsome]
    rfl
  · rename_i hnone
    unfold getItem
    rw [List.find?_append]
    cases hf : s.find? (fun kv => kv.1 == k) with
    | none => simp [List.find?_cons]
    | some x =>
      rw [hf] at hnone
      simp at hnone

/-- C3: a batch download never raises for individual failures: for every tour
record, with `M` of the `N` collected URLs failing to download, the returned
and persisted `CachedTourData.localAssets` has exactly `N − M` entries
(stated as `length + failures = N`), and a cache entry for the tour is
persisted under its key. -/
theorem downloadTourAssets_partial_failure (td : TourDetails) (tourId : Int)
    (env : Nat → DlEnv) (fs : Fs) (ready : Bool) (s : Store) (now : Int) :
    (downloadTourAssets td tourId env fs ready s now).cachedData.localAssets.length
        + (downloadTourAssets td tourId env fs ready s now).failures
      = (collectAllAssetUrls td).length
    ∧ getItem (downloadTourAssets td tourId env fs ready s now).store
        (cacheKey tourId)
      = some (StoredValue.valid
          (downloadTourAssets td tourId env fs ready s now).cachedData) := by
  constructor
  · simp only [downloadTourAssets]
    rw [processUrls_count _ env (collectAllAssetUrls td) 0 _
      (collectAllAssetUrls_nodup_and_exact td).1
      (fun u hu => mem_collect_ne_empty hu)
      (by intro kv hkv; simp at hkv)]
    simp
  · exact getItem_setItem _ _ s

/-- C7: every key of the `localAssets` mapping produced by
`downloadTourAssets` is a URL that appeared in the URL collector's enumeration
of the originating tour record. -/
theorem downloadTourAssets_keys_subset_collected (td : TourDetails)
    (tourId : Int) (env : Nat → DlEnv) (fs : Fs) (ready : Bool) (s : Store)
    (now : Int) :
    ∀ kv ∈ (downloadTourAssets td tourId env fs ready s now).cachedData.localAssets,
      kv.1 ∈ collectAllAssetUrls td := by
  intro kv hkv
  simp only [downloadTourAssets] at hkv
  exact processUrls_keys _ env (collectAllAssetUrls td) 0 _
    (collectAllAssetUrls td) (by intro kv' hkv'; simp at hkv')
    (fun u hu => hu) kv hkv

/-- C7 witness: in the demonstration run, the recorded mapping entry for the
tour thumbnail has a key that the collector enumerated. -/
theorem downloadTourAssets_keys_subset_collected_witness :
    ("https://x.com/a.png", cacheDir ++ "a_100_ss.png").1
      ∈ collectAllAssetUrls demoTour :=
  downloadTourAssets_keys_subset_collected demoTour 7 constEnv [] false [] 0
    ("https://x.com/a.png", cacheDir ++ "a_100_ss.png") (by decide)

theorem jsRoundPct_mono {d d' t : Nat} (h : d ≤ d') :
    jsRoundPct d t ≤ jsRoundPct d' t := by
  unfold jsRoundPct
  split
  · exact Nat.le_refl 0
  · exact Nat.div_le_div_right (by omega)

theorem processUrl_events_map (total : Nat) (st : BatchState) (url : String)
    (e : DlEnv) :
    (processUrl total st url e).events.map (fun ev => ev.percentage)
      = st.events.map (fun ev => ev.percentage)
        ++ (if url == "" then [jsRoundPct (st.downloaded + 1) total]
            else [jsRoundPct st.downloaded total,
                  jsRoundPct (st.downloaded + 1) total]) := by
  simp only [processUrl]
  split
  · simp
  · split <;> simp

theorem processUrl_downloaded (total : Nat) (st : BatchState) (url : String)
    (e : DlEnv) :
    (processUrl total st url e).downloaded = st.downloaded + 1 := by
  simp only [processUrl]
  split
  · rfl
  · split <;> rfl

theorem processUrls_chain (total : Nat) (env : Nat → DlEnv) :
    ∀ (urls : List String) (i : Nat) (st : BatchState),
    List.Chain' (· ≤ ·) (st.events.map (fun ev => ev.percentage)) →
    (∀ x ∈ (st.events.map (fun ev => ev.percentage)).getLast?,
        x ≤ jsRoundPct st.downloaded total) →
    List.Chain' (· ≤ ·)
      ((processUrls total env urls i st).events.map (fun ev => ev.percentage)) := by
  intro urls
  induction urls with
  | nil =>
    intro i st h _
    simpa [processUrls] using h
  | cons u rest ih =>
    intro i st hch hlast
    rw [processUrls]
    have hd := processUrl_downloaded total st u (env i)
    have hev := processUrl_events_map total st u (env i)
    refine ih (i + 1) _ ?_ ?_
    · rw [hev, List.chain'_append]
      refine ⟨hch, ?_, ?_⟩
      · split
        · exact List.chain'_singleton _
        · exact List.chain'_pair.2 (jsRoundPct_mono (Nat.le_succ _))
      · intro x hx y hy
        have hxle := hlast x hx
        split at hy
        · simp only [List.head?_cons, Option.mem_def, Option.some.injEq] at hy
          exact hy ▸ hxle.trans (jsRoundPct_mono (Nat.le_succ _))
        · simp only [List.head?_cons, Option.mem_def, Option.some.injEq] at hy
          exact hy ▸ hxle
    · intro x hx
      rw [hd]
      rw [hev] at hx
      split at hx
      · rw [List.getLast?_concat] at hx
        simp only [Option.mem_def, Option.some.injEq] at hx
        exact hx ▸ Nat.le_refl _
      · rw [show st.events.map (fun ev => ev.percentage)
            ++ [jsRoundPct st.downloaded total,
                jsRoundPct (st.downloaded + 1) total]
            = (st.events.map (fun ev => ev.percentage)
                ++ [jsRoundPct st.downloaded total])
              ++ [jsRoundPct (st.downloaded + 1) total] by
          simp [List.append_assoc],
          List.getLast?_concat] at hx
        simp only [Option.mem_def, Option.some.injEq] at hx
        exact hx ▸ Nat.le_refl _

/-- C6: during a batch download the sequence of percentages reported to the
progress callback never decreases (each pre-download report carries
`round(downloaded/total*100)` and each post-attempt report the incremented
value, both by construction of `processUrl`); and in the spec's end-to-end
scenario — tour 7, three asset URLs, all succeeding — the callback receives
exactly the percentages 0, 0, 33, 33, 67, 67, 100, whose distinct values in
order are 0, 33, 67, 100. -/
theorem progress_percentages_monotone :
    (∀ (td : TourDetails) (tourId : Int) (env : Nat → DlEnv) (fs : Fs)
        (ready : Bool) (s : Store) (now : Int),
      List.Chain' (· ≤ ·)
        ((downloadTourAssets td tourId env fs ready s now).events.map
          (fun ev => ev.percentage)))
    ∧ (downloadTourAssets demoTour 7 demoEnv [] false [] 0).events.map
        (fun ev => ev.percentage) = [0, 0, 33, 33, 67, 67, 100]
    ∧ ((downloadTourAssets demoTour 7 demoEnv [] false [] 0).events.map
        (fun ev => ev.percentage)).dedup = [0, 33, 67, 100] := by
  refine ⟨?_, by rfl, by rfl⟩
  intro td tourId env fs ready s now
  simp only [downloadTourAssets]
  refine processUrls_chain _ env _ 0 _ ?_ ?_
  · simp
  · intro x hx
    simp only [List.map_cons, List.map_nil, List.getLast?_singleton,
      Option.mem_def, Option.some.injEq] at hx
    exact hx ▸ Nat.zero_le _

theorem jsSplitChars_ne_nil (c : Char) (l : List Char) :
    jsSplitChars c l ≠ [] := by
  cases l with
  | nil => simp [jsSplitChars]
  | cons x xs =>
    rw [jsSplitChars]
    split <;> simp

theorem not_mem_of_mem_jsSplitChars {c : Char} :
    ∀ {l w : List Char}, w ∈ jsSplitChars c l → c ∉ w := by
  intro l
  induction l with
  | nil =>
    intro w hw
    simp only [jsSplitChars, List.mem_singleton] at hw
    simp [hw]
  | cons x xs ih =>
    intro w hw
    rw [jsSplitChars] at hw
    split at hw
    · rcases List.mem_cons.1 hw with rfl | hw
      · simp
      · exact ih hw
    · rename_i hxc
      rcases List.mem_cons.1 hw with rfl | hw
      · intro hmem
        rcases List.mem_cons.1 hmem with hcx | hmem
        · exact hxc hcx.symm
        · cases hr : jsSplitChars c xs with
          | nil => exact jsSplitChars_ne_nil c xs hr
          | cons a t =>
            rw [hr] at hmem
            exact ih (hr ▸ List.mem_cons_self a t) (by simpa using hmem)
      · cases hr : jsSplitChars c xs with
        | nil => exact absurd hr (jsSplitChars_ne_nil c xs)
        | cons a t =>
          rw [hr] at hw
          exact ih (hr ▸ List.mem_cons_of_mem a hw)

theorem getLastD_mem {α : Type} (l : List α) (d : α) (h : l ≠ []) :
    l.getLastD d ∈ l := by
  cases l with
  | nil => exact absurd rfl h
  | cons a t =>
    rw [List.getLastD_eq_getLast?, List.getLast?_eq_getLast _ (by simp)]
    simp only [Option.getD_some]
    exact List.getLast_mem _

theorem getFileNameFromUrl_no_slash {url ts rid : String}
    (hts : '/' ∉ ts.data) (hrid : '/' ∉ rid.data) :
    '/' ∉ (getFileNameFromUrl url ts rid).data := by
  have hfn : '/' ∉ (jsSplitChars '/' url.data).getLastD [] :=
    not_mem_of_mem_jsSplitChars
      (getLastD_mem _ _ (jsSplitChars_ne_nil '/' url.data))
  simp only [getFileNameFromUrl]
  split
  · intro hmem
    simp only [List.mem_append, List.mem_cons] at hmem
    rcases hmem with ((h | (h | h)) | (h | h)) | h
    · exact hfn (List.take_subset _ _ h)
    · exact absurd h (by decide)
    · exact hts h
    · exact absurd h (by decide)
    · exact hrid h
    · exact hfn (List.drop_subset _ _ h)
  · intro hmem
    simp only [List.mem_append, List.mem_cons] at hmem
    rcases hmem with (h | (h | h)) | (h | h)
    · exact hfn h
    · exact absurd h (by decide)
    · exact hts h
    · exact absurd h (by decide)
    · exact hrid h

theorem ensure_fs_mem {fs : Fs} {ready : Bool} {p : String}
    (h : p ∈ (ensureCacheDirectoryExists fs ready).1) :
    p ∈ fs ∨ p = cacheDir := by
  unfold ensureCacheDirectoryExists at h
  split at h
  · exact Or.inl h
  · split at h
    · exact Or.inl h
    · rcases List.mem_cons.1 h with rfl | h
      · exact Or.inr rfl
      · exact Or.inl h

theorem ensure_fs_superset {fs : Fs} {ready : Bool} {p : String} (h : p ∈ fs) :
    p ∈ (ensureCacheDirectoryExists fs ready).1 := by
  unfold ensureCacheDirectoryExists
  split
  · exact h
  · split
    · exact h
    · exact List.mem_cons_of_mem _ h

theorem downloadFile_fs_mem {fs : Fs} {ready : Bool} {url ts rid : String}
    {status : Nat} {p : String}
    (h : p ∈ (downloadFile fs ready url ts rid status).fs) :
    p ∈ fs ∨ p = cacheDir ∨ p = cacheDir ++ getFileNameFromUrl url ts rid := by
  simp only [downloadFile] at h
  split at h
  · rcases ensure_fs_mem h with h | h
    · exact Or.inl h
    · exact Or.inr (Or.inl h)
  · split at h <;>
    · rcases List.mem_cons.1 h with rfl | h
      · exact Or.inr (Or.inr rfl)
      · rcases ensure_fs_mem h with h | h
        · exact Or.inl h
        · exact Or.inr (Or.inl h)

theorem processUrl_fs_mem {total : Nat} {st : BatchState} {url : String}
    {e : DlEnv} {p : String} (h : p ∈ (processUrl total st url e).fs) :
    p ∈ st.fs ∨ p = cacheDir
      ∨ p = cacheDir ++ getFileNameFromUrl url e.fts e.frid := by
  simp only [processUrl] at h
  split at h
  · exact Or.inl h
  · split at h
    · exact downloadFile_fs_mem h
    · exact downloadFile_fs_mem h

theorem processUrls_fs_flat (total : Nat) (env : Nat → DlEnv) (fs0 : Fs)
    (henv : ∀ i, '/' ∉ (env i).fts.data ∧ '/' ∉ (env i).frid.data) :
    ∀ (urls : List String) (i : Nat) (st : BatchState),
    (∀ q ∈ st.fs, q ∈ fs0 ∨ ∃ fn, q = cacheDir ++ fn ∧ '/' ∉ fn.data) →
    ∀ p ∈ (processUrls total env urls i st).fs,
      p ∈ fs0 ∨ ∃ fn, p = cacheDir ++ fn ∧ '/' ∉ fn.data := by
  intro urls
  induction urls with
  | nil =>
    intro i st hst p hp
    exact hst p hp
  | cons u rest ih =>
    intro i st hst p hp
    rw [processUrls] at hp
    refine ih (i + 1) _ ?_ p hp
    intro q hq
    rcases processUrl_fs_mem hq with h | h | h
    · exact hst q h
    · exact Or.inr ⟨"", by rw [h, String.append_empty], by decide⟩
    · exact Or.inr ⟨_, h, getFileNameFromUrl_no_slash (henv i).1 (henv i).2⟩

theorem tour_subdir_isPrefixOf_eq_false {fn : String} (hfn : '/' ∉ fn.data)
    (n : String) :
    ((cacheDir ++ "tour_" ++ n ++ "/").data.isPrefixOf
        (cacheDir ++ fn).data) = false := by
  rw [Bool.eq_false_iff]
  intro hpre
  rw [ List.isPrefixOf_iff_prefix] at hpre
  have hd : (cacheDir ++ "tour_" ++ n ++ "/").data
      = cacheDir.data ++ ("tour_".data ++ n.data ++ "/".data) := by
    simp [String.data_append, List.append_assoc]
  have hd2 : (cacheDir ++ fn).data = cacheDir.data ++ fn.data :=
    String.data_append _ _
  rw [hd, hd2] at hpre
  have htail := (List.prefix_append_right_inj cacheDir.data).1 hpre
  have hslash : '/' ∈ "tour_".data ++ n.data ++ "/".data :=
    List.mem_append_right _ (by decide)
  exact hfn (htail.subset hslash)

theorem survives_clearTourCache {fs2 : Fs} {s2 : Store} {ready2 : Bool}
    {tid : Int} {fn : String} (hfn : '/' ∉ fn.data)
    (hp : (cacheDir ++ fn) ∈ fs2) :
    (cacheDir ++ fn) ∈ (clearTourCache fs2 s2 ready2 tid).1 := by
  have hp1 : (cacheDir ++ fn) ∈ (ensureCacheDirectoryExists fs2 ready2).1 :=
    ensure_fs_superset hp
  simp only [clearTourCache]
  split
  · refine List.mem_filter.2 ⟨hp1, ?_⟩
    rw [tour_subdir_isPrefixOf_eq_false hfn (toString tid)]
    rfl
  · exact hp1

/-- C9: implicit frame property — every file a batch download adds to disk
lives directly under the flat cache root `tour_cache/` (its name contains no
slash, given that the timestamp and random id drawn by the environment are
slash-free, as `Date.now()` digits and base-36 ids always are), never under a
per-tour subdirectory; consequently `clearTourCache tid` — which deletes only
the subdirectory `tour_cache/tour_<tid>/` — leaves every such file on disk. -/
theorem downloads_flat_root_survive_clearTourCache (td : TourDetails)
    (tourId : Int) (env : Nat → DlEnv) (fs : Fs) (ready : Bool) (s : Store)
    (now : Int) (tid2 : Int)
    (henv : ∀ i, '/' ∉ (env i).fts.data ∧ '/' ∉ (env i).frid.data) :
    ∀ p ∈ (downloadTourAssets td tourId env fs ready s now).fs, p ∉ fs →
      (∃ fn, p = cacheDir ++ fn ∧ '/' ∉ fn.data)
      ∧ p ∈ (clearTourCache
          (downloadTourAssets td tourId env fs ready s now).fs
          (downloadTourAssets td tourId env fs ready s now).store
          (downloadTourAssets td tourId env fs ready s now).cacheReady
          tid2).1 := by
  intro p hp hpnot
  have hflat : p ∈ fs ∨ ∃ fn, p = cacheDir ++ fn ∧ '/' ∉ fn.data := by
    have hp' : p ∈ (processUrls (collectAllAssetUrls td).length env
        (collectAllAssetUrls td) 0
        { downloaded := 0, localAssets := [],
          fs := (ensureCacheDirectoryExists fs ready).1,
          cacheReady := (ensureCacheDirectoryExists fs ready).2,
          events := [{ total := (collectAllAssetUrls td).length,
                       downloaded := 0,
                       currentFile := "Starting download...",
                       percentage := 0 }],
          failures := 0 }).fs := by
      simpa only [downloadTourAssets] using hp
    refine processUrls_fs_flat _ env fs henv _ 0 _ ?_ p hp'
    intro q hq
    rcases ensure_fs_mem hq with h | h
    · exact Or.inl h
    · exact Or.inr ⟨"", by rw [h, String.append_empty], by decide⟩
  rcases hflat with h | ⟨fn, rfl, hfn⟩
  · exact absurd h hpnot
  · exact ⟨⟨fn, rfl, hfn⟩, survives_clearTourCache hfn hp⟩

/-- C9 witness: for the three-asset demonstration tour downloaded with a
concrete slash-free environment, the first downloaded file sits directly
under the cache root and survives `clearTourCache 5`. -/
theorem downloads_flat_root_survive_clearTourCache_witness :
    (∃ fn, cacheDir ++ "a_100_ss.png" = cacheDir ++ fn ∧ '/' ∉ fn.data)
    ∧ (cacheDir ++ "a_100_ss.png")
        ∈ (clearTourCache
            (downloadTourAssets demoTour 7 constEnv [] false [] 0).fs
            (downloadTourAssets demoTour 7 constEnv [] false [] 0).store
            (downloadTourAssets demoTour 7 constEnv [] false [] 0).cacheReady
            5).1 :=
  downloads_flat_root_survive_clearTourCache demoTour 7 constEnv [] false [] 0
    5 (fun _ => ⟨(by decide : '/' ∉ ("100" : String).data),
      (by decide : '/' ∉ ("ss" : String).data)⟩) (cacheDir ++ "a_100_ss.png")
    (by decide) (by decide)

end TourAssetCache

